import Mathlib

/-!
Shallow embedding of the price-return pipeline in `src/main.py`.

Modelling conventions:
* Calendar dates are day numbers (`ℕ`); subtracting a lookback of `k` days is
  `ℕ` subtraction, mirroring `date - timedelta(days=k)`.
* Prices are exact rationals (`ℚ`); a missing cell of the pivoted table
  (pandas `NaN`) is `none`, so a series entry is `ℕ × Option ℚ`.
* A non-numeric float result of the final division (pandas `inf`/`nan`,
  which the script prints without failing) is modelled as `Except.ok none`.
* `pd.pivot_table` (line 31) aggregates duplicate `(date, ticker)` cells with
  its default `aggfunc`, the arithmetic mean: `cell` below.
* Label-based slices on the sorted date index (`[:eff]`, `[eff:]`,
  `[beginning_date:]`) are filters by `≤` / `≥`; the positional `[:-1]` on
  line 61 is `List.dropLast`; `iloc[0]` / `iloc[-1]` are `head?` / `getLast?`.
* The unhandled pandas `KeyError` raised by `df[t]` for an absent column is
  `Err.keyError t`; the explicit `ValueError` of line 85 is
  `Err.tickerNotFound`; the `IndexError` of `iloc` on an empty slice is
  `Err.indexError`.
-/

namespace Betashares

/-- One row of `prices.csv`: columns `date`, `ticker`, `close_price`. -/
structure PriceRow where
  date : ℕ
  ticker : String
  close : ℚ
deriving DecidableEq, Repr

/-- One row of `ticker_changes.csv`. -/
structure TickerChange where
  old_ticker : String
  new_ticker : String
  effective_date : ℕ
deriving DecidableEq, Repr

/-- One row of `splits.csv`. -/
structure SplitRow where
  ticker : String
  effective_date : ℕ
  from_quantity : ℚ
  to_quantity : ℚ
deriving DecidableEq, Repr

/-- Failure modes of the script (terminal exceptions). -/
inductive Err where
  | tickerNotFound (t : String)
  | keyError (t : String)
  | indexError
deriving DecidableEq, Repr

/-- A per-identity price series: (date, price) with `none` for NaN cells. -/
abbrev Series := List (ℕ × Option ℚ)

/-- Close prices of the raw rows at a given (date, ticker) cell. -/
def cellRows (rows : List PriceRow) (d : ℕ) (t : String) : List ℚ :=
  (rows.filter (fun r => decide (r.date = d ∧ r.ticker = t))).map (·.close)

/-- The pivoted cell: mean of the duplicate close prices, `none` when the
(date, ticker) pair is absent (`pd.pivot_table` default aggregation). -/
def cell (rows : List PriceRow) (d : ℕ) (t : String) : Option ℚ :=
  match cellRows rows d t with
  | [] => none
  | l => some (l.sum / (l.length : ℚ))

/-- The date index of the pivoted table: distinct dates, ascending. -/
def pivotDates (rows : List PriceRow) : List ℕ :=
  List.insertionSort (· ≤ ·) (rows.map (·.date)).dedup

/-- The columns of the pivoted table: the tickers occurring in the rows. -/
def tickersOf (rows : List PriceRow) : List String :=
  (rows.map (·.ticker)).dedup

/-- A ticker's column of the pivoted table clipped to dates `≤ endDate`
(`df_prices[t]` after `df_prices[:"2024-12-31"]`, lines 75 and 138):
one entry per index date, `none` where the ticker has no price. -/
def colSeries (rows : List PriceRow) (endDate : ℕ) (t : String) : Series :=
  ((pivotDates rows).filter (fun d => decide (d ≤ endDate))).map
    (fun d => (d, cell rows d t))

/-- `combine_changed_tickers` (lines 47-68): the old ticker's column sliced
by label to `[:eff]` then positionally by `[:-1]`, concatenated with the new
ticker's column sliced to `[eff:]`. An absent column raises a pandas
`KeyError` (old column accessed first). -/
def combine_changed_tickers (rows : List PriceRow) (endDate : ℕ)
    (old_t new_t : String) (eff : ℕ) : Except Err Series :=
  if old_t ∈ tickersOf rows then
    if new_t ∈ tickersOf rows then
      .ok ((((colSeries rows endDate old_t).filter
              (fun p => decide (p.1 ≤ eff))).dropLast) ++
           ((colSeries rows endDate new_t).filter
              (fun p => decide (eff ≤ p.1))))
    else .error (.keyError new_t)
  else .error (.keyError old_t)

/-- The three resolved-identity shapes of the rename step (lines 121-139). -/
inductive Resolved where
  | unchanged (t : String)
  | renamedForward (e : TickerChange)
  | renamedBackward (e : TickerChange)
deriving DecidableEq, Repr

/-- Rename resolution (lines 121-139): membership in the `old_ticker`
column is tested first; a match filters the table and takes row `[0]`,
which is `find?`. Only then is the `new_ticker` column consulted. -/
def resolveIdentity (changes : List TickerChange) (t : String) : Resolved :=
  match changes.find? (fun e => decide (e.old_ticker = t)) with
  | some e => .renamedForward e
  | none =>
    match changes.find? (fun e => decide (e.new_ticker = t)) with
    | some e => .renamedBackward e
    | none => .unchanged t

/-- `to_quantity / from_quantity` of a split row (line 150). -/
def splitFactor (e : SplitRow) : ℚ := e.to_quantity / e.from_quantity

/-- One iteration of the split loop (lines 146-156) for ticker `t`: the
first matching split row is taken, and `np.where(index >= eff, s * f, s)`
(line 153) rescales exactly the entries at dates on/after the effective
date. No matching row leaves the series unchanged. -/
def applySplit (splits : List SplitRow) (t : String) (s : Series) : Series :=
  match splits.find? (fun e => decide (e.ticker = t)) with
  | some e => s.map (fun p =>
      if e.effective_date ≤ p.1 then (p.1, p.2.map (· * splitFactor e)) else p)
  | none => s

/-- The split loop over `list(set([old_ticker, new_ticker]))` (line 144);
the two per-ticker rescalings commute, so set-iteration order is immaterial. -/
def applySplits (splits : List SplitRow) (old_t new_t : String)
    (s : Series) : Series :=
  ([old_t, new_t].dedup).foldl (fun acc t => applySplit splits t acc) s

/-- Rounding of `round(x, 2)` on exact values: nearest value with two
decimal places. -/
def round2 (q : ℚ) : ℚ := ((round (q * 100) : ℤ) : ℚ) / 100

/-- The return step (lines 159-164): slice `[beginning_date:]`, take
`iloc[0]` and `iloc[-1]`, return `round(((t1 / t0) - 1) * 100, 2)`.
An empty slice makes `iloc` raise `IndexError`; a NaN endpoint or a zero
base price yields a non-numeric float (`ok none`), not an exception. -/
def computeReturn (s : Series) (b : ℕ) : Except Err (Option ℚ) :=
  let w := s.filter (fun p => decide (b ≤ p.1))
  match w.head?, w.getLast? with
  | some p0, some p1 =>
    match p0.2, p1.2 with
    | some t0, some t1 =>
      if t0 = 0 then .ok none
      else .ok (some (round2 ((t1 / t0 - 1) * 100)))
    | _, _ => .ok none
  | _, _ => .error .indexError

/-- The whole query pipeline of `__main__` (lines 71-164), parametrised by
the analysis end date and the lookback in days: the line-85 presence check
on the query ticker, rename resolution, stitching, split adjustment, and
the windowed return with `beginning_date = endDate - timeframe`. -/
def pipeline (rows : List PriceRow) (changes : List TickerChange)
    (splits : List SplitRow) (t : String) (timeframe endDate : ℕ) :
    Except Err (Option ℚ) :=
  if t ∈ tickersOf rows then
    match resolveIdentity changes t with
    | .renamedForward e =>
      match combine_changed_tickers rows endDate
              e.old_ticker e.new_ticker e.effective_date with
      | .ok s => computeReturn
          (applySplits splits e.old_ticker e.new_ticker s) (endDate - timeframe)
      | .error err => .error err
    | .renamedBackward e =>
      match combine_changed_tickers rows endDate
              e.old_ticker e.new_ticker e.effective_date with
      | .ok s => computeReturn
          (applySplits splits e.old_ticker e.new_ticker s) (endDate - timeframe)
      | .error err => .error err
    | .unchanged tk =>
      computeReturn (applySplits splits tk tk (colSeries rows endDate tk))
        (endDate - timeframe)
  else .error (.tickerNotFound t)

/-- The split-adjustment rule exactly as the specification words it, for
comparison with `applySplit`: prices at dates strictly before the effective
date are multiplied by the split factor, later prices are unchanged. -/
def specSplitAdjust (e : SplitRow) (s : Series) : Series :=
  s.map (fun p =>
    if p.1 < e.effective_date then (p.1, p.2.map (· * splitFactor e)) else p)

/-- The stitching rule exactly as the specification words it, for comparison
with `combine_changed_tickers`: the old column at dates strictly before the
effective date, then the new column from the effective date onward. -/
def specStitch (rows : List PriceRow) (endDate : ℕ)
    (old_t new_t : String) (eff : ℕ) : Series :=
  ((colSeries rows endDate old_t).filter (fun p => decide (p.1 < eff))) ++
  ((colSeries rows endDate new_t).filter (fun p => decide (eff ≤ p.1)))

/-! ### General lemmas about the embedded operations -/

/-- `find?` returns the head of the filtered list: the `in ... .values` test
followed by `filter` and `.values[0]` in the source is one first-match
lookup. -/
lemma find?_eq_filter_head? {α : Type} (p : α → Bool) (l : List α) :
    l.find? p = (l.filter p).head? := by
  induction l with
  | nil => rfl
  | cons a t ih =>
    cases h : p a
    · simp only [List.find?_cons, List.filter_cons, h, ih]
      rfl
    · simp only [List.find?_cons, List.filter_cons, h]
      rfl

/-- The pivoted date index is strictly increasing. -/
lemma pivotDates_sorted (rows : List PriceRow) :
    (pivotDates rows).Sorted (· < ·) := by
  have hle : (pivotDates rows).Sorted (· ≤ ·) :=
    List.sorted_insertionSort (· ≤ ·) _
  have hnd : (pivotDates rows).Nodup :=
    (List.perm_insertionSort (· ≤ ·) _).nodup_iff.mpr (List.nodup_dedup _)
  exact hle.lt_of_le hnd

/-- Any column of the clipped pivoted table is strictly ascending by date. -/
lemma colSeries_sorted (rows : List PriceRow) (endDate : ℕ) (t : String) :
    (colSeries rows endDate t).Pairwise (fun p q => p.1 < q.1) := by
  unfold colSeries
  refine List.Pairwise.map _ (fun a b h => h) ?_
  exact List.Pairwise.sublist (List.filter_sublist _) (pivotDates_sorted rows)

/-- In a strictly date-sorted series the positionally first entry
(`iloc[0]`) carries the smallest date. -/
lemma sorted_head_le {l : Series} (hs : l.Pairwise (fun p q => p.1 < q.1))
    {a : ℕ × Option ℚ} (h : l.head? = some a) : ∀ p ∈ l, a.1 ≤ p.1 := by
  cases l with
  | nil => cases h
  | cons x t =>
    injection h with h
    subst h
    intro p hp
    rcases List.mem_cons.mp hp with rfl | hmem
    · exact le_refl _
    · exact le_of_lt ((List.pairwise_cons.mp hs).1 p hmem)

/-- In a strictly date-sorted series the positionally last entry
(`iloc[-1]`) carries the largest date. -/
lemma sorted_le_getLast {l : Series} (hs : l.Pairwise (fun p q => p.1 < q.1))
    {b : ℕ × Option ℚ} (h : l.getLast? = some b) : ∀ p ∈ l, p.1 ≤ b.1 := by
  induction l with
  | nil => cases h
  | cons x t ih =>
    cases t with
    | nil =>
      injection h with h
      subst h
      intro p hp
      rcases List.mem_cons.mp hp with rfl | hmem
      · exact le_refl _
      · cases hmem
    | cons y u =>
      rw [List.getLast?_cons_cons] at h
      intro p hp
      rcases List.mem_cons.mp hp with rfl | hmem
      · exact le_of_lt ((List.pairwise_cons.mp hs).1 b
          (List.mem_of_mem_getLast? h))
      · exact ih (List.Pairwise.of_cons hs) h p hmem

/-- The pivoted cell of a duplicated (date, ticker) pair holding exactly two
rows is the arithmetic mean of their close prices. -/
lemma cell_of_pair (rows : List PriceRow) (r1 r2 : PriceRow) (d : ℕ)
    (t : String)
    (hfilt : rows.filter (fun r => decide (r.date = d ∧ r.ticker = t)) =
      [r1, r2]) :
    cell rows d t = some ((r1.close + r2.close) / 2) := by
  unfold cell cellRows
  rw [hfilt]
  norm_num

/-! ### C9: deterministic rename resolution -/

/-- C9: if the query ticker appears in both the `old_ticker` and the
`new_ticker` columns, the `old_ticker` match takes precedence and the
identity is resolved as a forward rename from the first matching row;
and when the `old_ticker` column has no match, the backward resolution
likewise takes the first row matching the `new_ticker` column. -/
theorem resolveIdentity_first_match (changes : List TickerChange)
    (t : String) (e : TickerChange) :
    ((changes.filter (fun c => decide (c.old_ticker = t))).head? = some e →
      changes.any (fun c => decide (c.new_ticker = t)) = true →
      resolveIdentity changes t = .renamedForward e) ∧
    (changes.find? (fun c => decide (c.old_ticker = t)) = none →
      (changes.filter (fun c => decide (c.new_ticker = t))).head? = some e →
      resolveIdentity changes t = .renamedBackward e) := by
  constructor
  · intro hhead _
    simp only [resolveIdentity, find?_eq_filter_head?, hhead]
  · intro hnone hhead
    simp only [resolveIdentity, hnone, find?_eq_filter_head?, hhead]

/-- Witness for C9 on a table where ticker "T" occurs in both columns. -/
theorem resolveIdentity_first_match_witness :
    resolveIdentity [⟨"X", "T", 1⟩, ⟨"T", "Y", 2⟩] "T" =
      .renamedForward ⟨"T", "Y", 2⟩ :=
  (resolveIdentity_first_match [⟨"X", "T", 1⟩, ⟨"T", "Y", 2⟩] "T"
    ⟨"T", "Y", 2⟩).1 (by decide) (by decide)

/-! ### C10: duplicate (date, ticker) rows are averaged -/

/-- C10: when the input rows contain a duplicated (date, ticker) pair (two
rows for the cell), the pivoted column at that date holds the arithmetic
mean of the duplicate close prices, and that mean is the only value the
column associates with the date. -/
theorem pivot_duplicates_mean (rows : List PriceRow) (r1 r2 : PriceRow)
    (d endDate : ℕ) (t : String)
    (hfilt : rows.filter (fun r => decide (r.date = d ∧ r.ticker = t)) =
      [r1, r2])
    (hdE : d ≤ endDate) :
    (d, some ((r1.close + r2.close) / 2)) ∈ colSeries rows endDate t ∧
    ∀ q, (d, q) ∈ colSeries rows endDate t →
      q = some ((r1.close + r2.close) / 2) := by
  have hr1 : r1 ∈ rows.filter (fun r => decide (r.date = d ∧ r.ticker = t)) := by
    rw [hfilt]; exact List.mem_cons_self r1 [r2]
  have hr1' := List.mem_filter.mp hr1
  have hdt : r1.date = d ∧ r1.ticker = t := of_decide_eq_true hr1'.2
  have hd : d ∈ pivotDates rows := by
    simp only [pivotDates, List.mem_insertionSort, List.mem_dedup]
    exact hdt.1 ▸ List.mem_map_of_mem (·.date) hr1'.1
  have hdclip : d ∈ (pivotDates rows).filter (fun x => decide (x ≤ endDate)) :=
    List.mem_filter.mpr ⟨hd, decide_eq_true hdE⟩
  constructor
  · simp only [colSeries]
    refine List.mem_map.mpr ⟨d, hdclip, ?_⟩
    rw [cell_of_pair rows r1 r2 d t hfilt]
  · intro q hq
    simp only [colSeries] at hq
    rcases List.mem_map.mp hq with ⟨d', _, heq⟩
    have hq' : cell rows d' t = q := congrArg Prod.snd heq
    have hd' : d' = d := congrArg Prod.fst heq
    rw [← hq', hd', cell_of_pair rows r1 r2 d t hfilt]

/-- Witness for C10: two "A" rows on date 0 with closes 10 and 14 pivot to
the mean 12. -/
theorem pivot_duplicates_mean_witness :
    ((0 : ℕ), some ((12 : ℚ))) ∈
      colSeries [⟨0, "A", 10⟩, ⟨0, "A", 14⟩, ⟨1, "A", 20⟩] 5 "A" := by
  have h := (pivot_duplicates_mean [⟨0, "A", 10⟩, ⟨0, "A", 14⟩, ⟨1, "A", 20⟩]
    ⟨0, "A", 10⟩ ⟨0, "A", 14⟩ 0 5 "A" (by decide) (by decide)).1
  norm_num at h
  exact h

/-! ### C1 and C4: which side of the split's effective date is rescaled -/

/-- The scenario split row: effective day 1, `from_quantity = 1`,
`to_quantity = 2`, so the factor `to/from` is 2. -/
def xyzSplit : SplitRow := ⟨"XYZ", 1, 1, 2⟩

/-- A series with one pre-split and one post-split price. -/
def xyzSeries : Series := [(0, some 50), (2, some 26)]

/-- The scenario price rows: XYZ closes at 50 the day before the split and
at 26 on the split's effective day. -/
def rowsC4 : List PriceRow := [⟨0, "XYZ", 50⟩, ⟨1, "XYZ", 26⟩]

/-- C1 counterexample: the adjuster multiplies the price at the date on/after
the effective date (26 becomes 52) and leaves the strictly earlier price at
50, which differs from the spec's rule of rescaling the earlier price. -/
theorem applySplit_ne_spec_rule :
    applySplit [xyzSplit] "XYZ" xyzSeries = [(0, some 50), (2, some 52)] ∧
    applySplit [xyzSplit] "XYZ" xyzSeries ≠ specSplitAdjust xyzSplit xyzSeries := by
  constructor <;>
    norm_num [applySplit, specSplitAdjust, xyzSplit, xyzSeries, splitFactor,
      List.find?]

/-- C1 (amended): for the first split row matching a chain ticker, the
adjusted series multiplies exactly the prices at dates on or after the
split's effective date by `split_ratio = to_quantity / from_quantity`, and
leaves every price at a date strictly before the effective date unchanged. -/
theorem applySplit_rescales_on_or_after (splits : List SplitRow) (t : String)
    (e : SplitRow) (s : Series)
    (hfind : splits.find? (fun r => decide (r.ticker = t)) = some e) :
    ∀ i : ℕ, ∀ p : ℕ × Option ℚ, s[i]? = some p →
      (e.effective_date ≤ p.1 →
        (applySplit splits t s)[i]? =
          some (p.1, p.2.map (· * splitFactor e))) ∧
      (p.1 < e.effective_date → (applySplit splits t s)[i]? = some p) := by
  intro i p hp
  simp only [applySplit, hfind]
  constructor
  · intro hle
    rw [List.getElem?_map, hp]
    simp [if_pos hle]
  · intro hlt
    rw [List.getElem?_map, hp]
    simp [if_neg (not_le.mpr hlt)]

/-- Witness for the amended C1: entry 1 of the adjusted scenario series is
the post-split date 2 with its price rescaled from 26 to 52. -/
theorem applySplit_rescales_on_or_after_witness :
    (applySplit [xyzSplit] "XYZ" xyzSeries)[1]? = some (2, some 52) := by
  have h := (applySplit_rescales_on_or_after [xyzSplit] "XYZ" xyzSplit
    xyzSeries rfl 1 (2, some 26) rfl).1 (by norm_num [xyzSplit])
  rw [h]
  norm_num [xyzSplit, splitFactor]

/-- C4 counterexample: in the scenario the adjusted series keeps the
2023-02-28 price at 50 (rescaling 2023-03-01 to 52 instead); it is not the
series the claim describes, whose 2023-02-28 price is 25. -/
theorem scenario_adjusted_series_ne_claim :
    applySplits [xyzSplit] "XYZ" "XYZ" (colSeries rowsC4 1 "XYZ") =
      [(0, some 50), (1, some 52)] ∧
    applySplits [xyzSplit] "XYZ" "XYZ" (colSeries rowsC4 1 "XYZ") ≠
      [(0, some 25), (1, some 26)] := by
  constructor <;>
    norm_num +decide [applySplits, applySplit, splitFactor, colSeries,
      pivotDates, cell, cellRows, rowsC4, xyzSplit, List.insertionSort,
      List.orderedInsert, List.find?]

/-- C4 (amended): in the scenario the adjuster leaves the 2023-02-28 price
at 50 and rescales the 2023-03-01 price from 26 to 52, and the computed
return over the 2-day window is 4.00%. -/
theorem scenario_split_return :
    applySplits [xyzSplit] "XYZ" "XYZ" (colSeries rowsC4 1 "XYZ") =
      [(0, some 50), (1, some 52)] ∧
    pipeline rowsC4 [] [xyzSplit] "XYZ" 1 1 = .ok (some 4) := by
  constructor <;>
    norm_num +decide [pipeline, resolveIdentity, tickersOf, colSeries,
      pivotDates, cell, cellRows, applySplits, applySplit, splitFactor,
      computeReturn, combine_changed_tickers, round2, rowsC4, xyzSplit,
      List.insertionSort, List.orderedInsert, List.find?]

/-! ### C6: the return step performs no validation -/

/-- C6 counterexample: a windowed slice with exactly one observation does
not fail with `InsufficientData` but returns the numeric result 0.00, and a
negative base price t0 = -50 also yields a numeric result (-152.0). -/
theorem computeReturn_no_validation :
    ([((5 : ℕ), some (10 : ℚ))] : Series).filter
        (fun p => decide ((0 : ℕ) ≤ p.1)) = [(5, some 10)] ∧
    computeReturn [(5, some 10)] 0 = .ok (some 0) ∧
    computeReturn [(0, some (-50)), (1, some 26)] 0 = .ok (some (-152)) := by
  refine ⟨by decide, ?_, ?_⟩ <;> norm_num [computeReturn, round2, round_eq]

/-- C6 (amended): the return step fails only with a positional index error,
and only when the windowed slice is empty; every nonempty slice (including
one with a single observation or a non-positive base price) produces an
`ok` result. -/
theorem computeReturn_error_iff (s : Series) (b : ℕ) (e : Err) :
    computeReturn s b = .error e ↔
      e = .indexError ∧ s.filter (fun p => decide (b ≤ p.1)) = [] := by
  simp only [computeReturn]
  cases hw : s.filter (fun p => decide (b ≤ p.1)) with
  | nil => simp [eq_comm]
  | cons a t =>
    obtain ⟨q, hq⟩ : ∃ q, (a :: t).getLast? = some q :=
      ⟨(a :: t).getLast (List.cons_ne_nil a t), List.getLast?_eq_getLast _ _⟩
    simp only [hw, List.head?_cons, hq]
    cases ha : a.2 with
    | none => simp
    | some t0 =>
      cases hq2 : q.2 with
      | none => simp
      | some t1 =>
        by_cases ht : t0 = 0
        · simp [ht]
        · simp [ht]

/-! ### C5: the return formula on the windowed slice -/

/-- C5: the return calculator keeps exactly the observations at dates on or
after the window start `endDate - timeframe`, takes t0 from the earliest
retained date and t1 from the latest retained date (head and last of the
slice, which a strictly sorted series makes the extremal dates), and
returns `round(((t1 / t0) - 1) * 100, 2)`. -/
theorem computeReturn_formula (s : Series) (timeframe endDate : ℕ)
    (d0 d1 : ℕ) (t0 t1 : ℚ)
    (hs : s.Pairwise (fun p q => p.1 < q.1))
    (hh : (s.filter (fun p => decide (endDate - timeframe ≤ p.1))).head? =
      some (d0, some t0))
    (hl : (s.filter (fun p => decide (endDate - timeframe ≤ p.1))).getLast? =
      some (d1, some t1))
    (ht0 : t0 ≠ 0) :
    computeReturn s (endDate - timeframe) =
      .ok (some (round2 ((t1 / t0 - 1) * 100))) ∧
    (∀ p : ℕ × Option ℚ,
      p ∈ s.filter (fun p => decide (endDate - timeframe ≤ p.1)) ↔
        p ∈ s ∧ endDate - timeframe ≤ p.1) ∧
    (∀ p ∈ s.filter (fun p => decide (endDate - timeframe ≤ p.1)),
      d0 ≤ p.1 ∧ p.1 ≤ d1) := by
  refine ⟨?_, ?_, ?_⟩
  · simp only [computeReturn, hh, hl]
    rw [if_neg ht0]
  · intro p
    simp [List.mem_filter]
  · intro p hp
    have hsf := List.Pairwise.sublist
      (List.filter_sublist (p := fun p => decide (endDate - timeframe ≤ p.1)) s) hs
    exact ⟨sorted_head_le hsf hh p hp, sorted_le_getLast hsf hl p hp⟩

/-- Witness for C5 on a 2-point series with a 1-day lookback from day 1. -/
theorem computeReturn_formula_witness :
    computeReturn [(0, some 100), (1, some 110)] (1 - 1) =
      .ok (some (round2 ((110 / 100 - 1) * 100))) :=
  (computeReturn_formula [(0, some 100), (1, some 110)] 1 1 0 1 100 110
    (by decide) (by norm_num [List.filter]) (by norm_num [List.filter])
    (by norm_num)).1

/-! ### C7: one-sided windows are unaffected by the split adjustment -/

/-- If the windowed slice of `s'` is the slice of `s` with every value
multiplied by a fixed nonzero factor, the computed return is unchanged
(the t1/t0 ratio cancels the factor). -/
lemma computeReturn_congr_scaled {s s' : Series} {b : ℕ} {r : ℚ}
    (hr : r ≠ 0)
    (hfil : s'.filter (fun p => decide (b ≤ p.1)) =
      (s.filter (fun p => decide (b ≤ p.1))).map
        (fun p => (p.1, p.2.map (· * r)))) :
    computeReturn s' b = computeReturn s b := by
  simp only [computeReturn, hfil, List.head?_map, List.getLast?_map]
  cases hw0 : (s.filter (fun p => decide (b ≤ p.1))).head? with
  | none => rfl
  | some p0 =>
    cases hw1 : (s.filter (fun p => decide (b ≤ p.1))).getLast? with
    | none => rfl
    | some p1 =>
      simp only [Option.map_some']
      cases h0 : p0.2 with
      | none => rfl
      | some t0 =>
        cases h1 : p1.2 with
        | none => rfl
        | some t1 =>
          simp only [Option.map_some']
          by_cases ht : t0 = 0
          · simp [ht]
          · rw [if_neg ht, if_neg (mul_ne_zero ht hr)]
            rw [mul_div_mul_right _ _ hr]

/-- C7: a window lying entirely strictly before the split's effective date,
or entirely on/after it, computes the same return from the split-adjusted
series as from the unadjusted one; equivalently, only a window straddling
the effective date can change the t1/t0 ratio. -/
theorem split_preserves_one_sided_return (splits : List SplitRow)
    (t : String) (e : SplitRow) (s : Series) (b : ℕ)
    (hfind : splits.find? (fun r => decide (r.ticker = t)) = some e)
    (hr : splitFactor e ≠ 0)
    (hside :
      (∀ p ∈ s.filter (fun p => decide (b ≤ p.1)),
        p.1 < e.effective_date) ∨
      (∀ p ∈ s.filter (fun p => decide (b ≤ p.1)),
        e.effective_date ≤ p.1)) :
    computeReturn (applySplit splits t s) b = computeReturn s b := by
  have hmapfil : (applySplit splits t s).filter (fun p => decide (b ≤ p.1)) =
      (s.filter (fun p => decide (b ≤ p.1))).map
        (fun p => if e.effective_date ≤ p.1
          then (p.1, p.2.map (· * splitFactor e)) else p) := by
    simp only [applySplit, hfind]
    rw [List.filter_map]
    congr 1
    apply List.filter_congr
    intro p _
    simp only [Function.comp_apply]
    by_cases h : e.effective_date ≤ p.1
    · rw [if_pos h]
    · rw [if_neg h]
  rcases hside with hside | hside
  · have hfil : (applySplit splits t s).filter (fun p => decide (b ≤ p.1)) =
        s.filter (fun p => decide (b ≤ p.1)) := by
      rw [hmapfil]
      exact (List.map_congr_left fun p hp =>
        if_neg (not_le.mpr (hside p hp))).trans (List.map_id _)
    simp only [computeReturn, hfil]
  · refine computeReturn_congr_scaled hr ?_
    rw [hmapfil]
    exact List.map_congr_left fun p hp => if_pos (hside p hp)

/-- Witness for C7: a window entirely on/after the effective day 1 of the
2-for-1 split leaves the computed return unchanged. -/
theorem split_preserves_one_sided_return_witness :
    computeReturn (applySplit [xyzSplit] "XYZ" [(1, some 10), (2, some 12)]) 0 =
      computeReturn [(1, some 10), (2, some 12)] 0 :=
  split_preserves_one_sided_return [xyzSplit] "XYZ" xyzSplit
    [(1, some 10), (2, some 12)] 0 rfl
    (by norm_num [splitFactor, xyzSplit]) (Or.inr (by decide))

/-! ### C8: failures on absent price columns -/

/-- Rows with data for "A" only. -/
def rowsC8 : List PriceRow := [⟨0, "A", 10⟩, ⟨1, "A", 11⟩]

/-- A rename of "A" to "B", whose price column is absent. -/
def changesC8 : List TickerChange := [⟨"A", "B", 1⟩]

/-- C8 counterexample: querying "A" when the renamed-to column "B" is absent
fails with the unhandled pandas `KeyError` for "B", not with the
`TickerNotFound` validation error. -/
theorem pipeline_keyError_counterexample :
    pipeline rowsC8 changesC8 [] "A" 1 1 = .error (.keyError "B") ∧
    pipeline rowsC8 changesC8 [] "A" 1 1 ≠ .error (.tickerNotFound "A") ∧
    pipeline rowsC8 changesC8 [] "A" 1 1 ≠ .error (.tickerNotFound "B") := by
  have h : pipeline rowsC8 changesC8 [] "A" 1 1 = .error (.keyError "B") := by
    norm_num +decide [pipeline, resolveIdentity, tickersOf,
      combine_changed_tickers, rowsC8, changesC8, List.find?]
  refine ⟨h, ?_, ?_⟩ <;> rw [h] <;> simp

/-- C8 (amended): a query ticker absent from the price table fails with the
explicit `TickerNotFound` check; but when the query ticker is present and
the other ticker of the rename chain has no column, the failure is the
unhandled `KeyError` for that ticker instead. -/
theorem pipeline_missing_column_errors (rows : List PriceRow)
    (changes : List TickerChange) (splits : List SplitRow) (t : String)
    (timeframe endDate : ℕ) :
    (t ∉ tickersOf rows →
      pipeline rows changes splits t timeframe endDate =
        .error (.tickerNotFound t)) ∧
    (∀ e : TickerChange, t ∈ tickersOf rows →
      changes.find? (fun c => decide (c.old_ticker = t)) = some e →
      e.new_ticker ∉ tickersOf rows →
      pipeline rows changes splits t timeframe endDate =
        .error (.keyError e.new_ticker)) ∧
    (∀ e : TickerChange, t ∈ tickersOf rows →
      changes.find? (fun c => decide (c.old_ticker = t)) = none →
      changes.find? (fun c => decide (c.new_ticker = t)) = some e →
      e.old_ticker ∉ tickersOf rows →
      pipeline rows changes splits t timeframe endDate =
        .error (.keyError e.old_ticker)) := by
  refine ⟨?_, ?_, ?_⟩
  · intro h
    simp only [pipeline, if_neg h]
  · intro e ht hfind hnew
    have hd := @List.find?_some TickerChange
      (fun c => decide (c.old_ticker = t)) e changes hfind
    have holdt : e.old_ticker = t := of_decide_eq_true hd
    simp only [pipeline, if_pos ht, resolveIdentity, hfind,
      combine_changed_tickers, holdt, if_pos ht, if_neg hnew]
  · intro e ht hnone hfind hold
    simp only [pipeline, if_pos ht, resolveIdentity, hnone, hfind,
      combine_changed_tickers, if_neg hold]

/-- Witness for the amended C8: an unknown query ticker is rejected with
`TickerNotFound`. -/
theorem pipeline_missing_column_errors_witness :
    pipeline rowsC8 changesC8 [] "Z" 1 1 = .error (.tickerNotFound "Z") :=
  (pipeline_missing_column_errors rowsC8 changesC8 [] "Z" 1 1).1 (by decide)

/-! ### C3: querying by old versus new symbol -/

/-- Rows for the chained-rename counterexample: A renamed to B on day 1,
B renamed to C on day 2. -/
def rowsC3 : List PriceRow :=
  [⟨0, "A", 100⟩, ⟨1, "B", 110⟩, ⟨2, "B", 120⟩, ⟨2, "C", 121⟩]

/-- A rename table in which "B" occurs both as a new ticker and as an old
ticker. -/
def changesC3 : List TickerChange := [⟨"A", "B", 1⟩, ⟨"B", "C", 2⟩]

/-- C3 counterexample: for the rename event (A, B, day 1), querying "A"
returns 20.0 while querying "B" resolves the other rename first and yields
a non-numeric result — the two queries do not agree. -/
theorem pipeline_not_symbol_agnostic :
    pipeline rowsC3 changesC3 [] "A" 2 2 = .ok (some 20) ∧
    pipeline rowsC3 changesC3 [] "B" 2 2 = .ok none ∧
    pipeline rowsC3 changesC3 [] "A" 2 2 ≠ pipeline rowsC3 changesC3 [] "B" 2 2 := by
  have h1 : pipeline rowsC3 changesC3 [] "A" 2 2 = .ok (some 20) := by
    norm_num +decide [pipeline, resolveIdentity, tickersOf, colSeries,
      pivotDates, cell, cellRows, applySplits, applySplit, splitFactor,
      computeReturn, combine_changed_tickers, round2, rowsC3, changesC3,
      List.insertionSort, List.orderedInsert, List.find?]
  have h2 : pipeline rowsC3 changesC3 [] "B" 2 2 = .ok none := by
    norm_num +decide [pipeline, resolveIdentity, tickersOf, colSeries,
      pivotDates, cell, cellRows, applySplits, applySplit, splitFactor,
      computeReturn, combine_changed_tickers, round2, rowsC3, changesC3,
      List.insertionSort, List.orderedInsert, List.find?]
  refine ⟨h1, h2, ?_⟩
  rw [h1, h2]
  simp

/-- C3 (amended): when the rename table associates the event (o, n, d) to
both symbols — o's first old-column match is that event, n matches no
old-column entry, and n's first new-column match is that event — and both
price columns exist, querying by the old and by the new symbol produce the
same pipeline result over any identical window. -/
theorem pipeline_symbol_agnostic (rows : List PriceRow)
    (changes : List TickerChange) (splits : List SplitRow)
    (o n : String) (d timeframe endDate : ℕ)
    (hfo : changes.find? (fun e => decide (e.old_ticker = o)) = some ⟨o, n, d⟩)
    (hno : changes.find? (fun e => decide (e.old_ticker = n)) = none)
    (hnn : changes.find? (fun e => decide (e.new_ticker = n)) = some ⟨o, n, d⟩)
    (ho : o ∈ tickersOf rows) (hn : n ∈ tickersOf rows) :
    pipeline rows changes splits o timeframe endDate =
      pipeline rows changes splits n timeframe endDate := by
  simp only [pipeline, if_pos ho, if_pos hn, resolveIdentity, hfo, hno, hnn]

/-- Witness for the amended C3 on the FB → META scenario. -/
theorem pipeline_symbol_agnostic_witness :
    pipeline [⟨0, "FB", 200⟩, ⟨1, "META", 210⟩] [⟨"FB", "META", 1⟩] []
        "FB" 1 1 =
      pipeline [⟨0, "FB", 200⟩, ⟨1, "META", 210⟩] [⟨"FB", "META", 1⟩] []
        "META" 1 1 :=
  pipeline_symbol_agnostic [⟨0, "FB", 200⟩, ⟨1, "META", 210⟩]
    [⟨"FB", "META", 1⟩] [] "FB" "META" 1 1 1 (by decide) (by decide)
    (by decide) (by decide) (by decide)

/-! ### C2: the stitcher's cut around the effective date -/

/-- On a strictly increasing list of dates containing `eff`, the label
slice `[:eff]` is the strict slice `[:eff)` with `eff` appended at the
end. -/
lemma filter_le_of_sorted {ds : List ℕ} {eff : ℕ}
    (hs : ds.Pairwise (· < ·)) (h : eff ∈ ds) :
    ds.filter (fun d => decide (d ≤ eff)) =
      ds.filter (fun d => decide (d < eff)) ++ [eff] := by
  induction ds with
  | nil => cases h
  | cons a t ih =>
    rcases List.mem_cons.mp h with rfl | hmem
    · have h1 : t.filter (fun d => decide (d ≤ eff)) = [] := by
        refine List.filter_eq_nil_iff.mpr fun x hx => ?_
        simp only [decide_eq_true_eq]
        exact not_le.mpr ((List.pairwise_cons.mp hs).1 x hx)
      have h2 : t.filter (fun d => decide (d < eff)) = [] := by
        refine List.filter_eq_nil_iff.mpr fun x hx => ?_
        simp only [decide_eq_true_eq]
        exact not_lt.mpr (le_of_lt ((List.pairwise_cons.mp hs).1 x hx))
      simp [List.filter_cons, h1, h2]
    · have ha : a < eff := (List.pairwise_cons.mp hs).1 eff hmem
      have ht := ih (List.Pairwise.of_cons hs) hmem
      simp [List.filter_cons, ha, le_of_lt ha, ht]

/-- A date filter on a column is the image of the same filter on the
clipped date index. -/
lemma col_filter_dates (rows : List PriceRow) (endDate : ℕ) (t : String)
    (p : ℕ → Bool) :
    (colSeries rows endDate t).filter (fun q => p q.1) =
      ((((pivotDates rows).filter (fun d => decide (d ≤ endDate))).filter p).map
        (fun d => (d, cell rows d t))) := by
  simp only [colSeries]
  rw [List.filter_map]
  rfl

/-- Rows making the old column "A" live on days 0 and 1 and the new column
"B" on days 3 and 4, with no trading on the effective day 2. -/
def rowsC2 : List PriceRow :=
  [⟨0, "A", 10⟩, ⟨1, "A", 11⟩, ⟨3, "B", 13⟩, ⟨4, "B", 14⟩]

/-- C2 counterexample: with effective day 2 absent from the date index the
stitcher also drops day 1 — a date strictly before the effective date —
so the combined series is not the strict-cut series the claim describes. -/
theorem combine_drops_wrong_date :
    combine_changed_tickers rowsC2 10 "A" "B" 2 =
      .ok [(0, some 10), (3, some 13), (4, some 14)] ∧
    specStitch rowsC2 10 "A" "B" 2 =
      [(0, some 10), (1, some 11), (3, some 13), (4, some 14)] ∧
    combine_changed_tickers rowsC2 10 "A" "B" 2 ≠
      .ok (specStitch rowsC2 10 "A" "B" 2) := by
  have h1 : combine_changed_tickers rowsC2 10 "A" "B" 2 =
      .ok [(0, some 10), (3, some 13), (4, some 14)] := by
    norm_num +decide [combine_changed_tickers, tickersOf, colSeries,
      pivotDates, cell, cellRows, rowsC2, List.insertionSort,
      List.orderedInsert]
  have h2 : specStitch rowsC2 10 "A" "B" 2 =
      [(0, some 10), (1, some 11), (3, some 13), (4, some 14)] := by
    norm_num +decide [specStitch, colSeries, pivotDates, cell, cellRows,
      rowsC2, List.insertionSort, List.orderedInsert]
  refine ⟨h1, h2, ?_⟩
  rw [h1, h2]
  simp

/-- C2 (amended): when the effective date is present in the clipped date
index (and both columns exist), the stitched series is exactly the old
column at dates strictly before the effective date followed by the new
column from the effective date onward, and it is strictly ascending by
date; when the effective date is absent, the last index date before it is
dropped as well. -/
theorem combine_eq_strict_cut (rows : List PriceRow) (endDate : ℕ)
    (old_t new_t : String) (eff : ℕ)
    (hold : old_t ∈ tickersOf rows) (hnew : new_t ∈ tickersOf rows)
    (heff : eff ∈ (pivotDates rows).filter (fun d => decide (d ≤ endDate))) :
    combine_changed_tickers rows endDate old_t new_t eff =
      .ok (specStitch rows endDate old_t new_t eff) ∧
    (specStitch rows endDate old_t new_t eff).Pairwise
      (fun p q => p.1 < q.1) := by
  have hds : ((pivotDates rows).filter
      (fun d => decide (d ≤ endDate))).Pairwise (· < ·) :=
    List.Pairwise.sublist
      (List.filter_sublist (p := fun d => decide (d ≤ endDate)) _)
      (pivotDates_sorted rows)
  have key : ((colSeries rows endDate old_t).filter
        (fun q => decide (q.1 ≤ eff))).dropLast =
      (colSeries rows endDate old_t).filter (fun q => decide (q.1 < eff)) := by
    rw [col_filter_dates rows endDate old_t (fun d => decide (d ≤ eff)),
      col_filter_dates rows endDate old_t (fun d => decide (d < eff)),
      filter_le_of_sorted hds heff, List.map_append]
    simp
  constructor
  · simp only [combine_changed_tickers, if_pos hold, if_pos hnew,
      specStitch, key]
  · refine List.pairwise_append.mpr ⟨?_, ?_, ?_⟩
    · exact List.Pairwise.sublist
        (List.filter_sublist (p := fun q : ℕ × Option ℚ => decide (q.1 < eff)) _)
        (colSeries_sorted rows endDate old_t)
    · exact List.Pairwise.sublist
        (List.filter_sublist (p := fun q : ℕ × Option ℚ => decide (eff ≤ q.1)) _)
        (colSeries_sorted rows endDate new_t)
    · intro p hp q hq
      exact lt_of_lt_of_le (of_decide_eq_true (List.mem_filter.mp hp).2)
        (of_decide_eq_true (List.mem_filter.mp hq).2)

/-- Witness for the amended C2: the effective day 2 is a trading day, so
the stitch is the strict cut and is sorted. -/
theorem combine_eq_strict_cut_witness :
    combine_changed_tickers
        [⟨0, "A", 10⟩, ⟨1, "A", 11⟩, ⟨2, "B", 12⟩, ⟨3, "B", 13⟩] 10
        "A" "B" 2 =
      .ok (specStitch
        [⟨0, "A", 10⟩, ⟨1, "A", 11⟩, ⟨2, "B", 12⟩, ⟨3, "B", 13⟩] 10
        "A" "B" 2) :=
  (combine_eq_strict_cut
    [⟨0, "A", 10⟩, ⟨1, "A", 11⟩, ⟨2, "B", 12⟩, ⟨3, "B", 13⟩] 10
    "A" "B" 2 (by decide) (by decide) (by decide)).1

end Betashares
